import Mathlib

/-!
A verification development for the module-registry core of the b2ctools
dashboard (`app.py`): discovery of `code*.py` candidate files, loading and
validation of each candidate, metadata extraction, deterministic ordering,
the process-lifetime registry cache, and the dispatch boundary.

The Python source is embedded shallowly: modules become records of their
relevant attributes, `importlib.import_module` becomes an explicit
environment `ImportEnv`, exceptions become `Except`, the insertion-ordered
`dict` becomes an association list with in-place overwrite, and the two
`sorted` calls become stable merge sorts over the same comparison keys.
-/

namespace B2C

/-- The single-quote character, used when building the operator-facing
message strings of `app.py`. -/
def apo : String := String.mk [Char.ofNat 39]

/-- A Python exception as observed at the dispatch boundary of
`run_selected_module`: `type(e).__name__`, `str(e)` and the string
`traceback.format_exc()` would produce. -/
structure PyExc where
  typeName : String
  msg : String
  tb : String
deriving DecidableEq, Repr

instance {ε α : Type} [DecidableEq ε] [DecidableEq α] : DecidableEq (Except ε α) :=
  fun x y =>
    match x, y with
    | .ok a, .ok b => decidable_of_iff (a = b) (by simp)
    | .error a, .error b => decidable_of_iff (a = b) (by simp)
    | .ok _, .error _ => isFalse (by simp)
    | .error _, .ok _ => isFalse (by simp)

/-- The `run` attribute of a loaded module: either a callable whose
invocation behaviour is given (normal return or a raised exception), or a
non-callable value. -/
inductive RunAttr where
  | callable (behavior : Except PyExc Unit)
  | notCallable
deriving DecidableEq, Repr

/-- A loaded Python module, restricted to the attributes `app.py` probes:
the optional `run` attribute and the three optional metadata declarations.
`none` models an absent attribute (so `hasattr`/`getattr` defaulting is a
`match` on the option). -/
structure PyModule where
  runAttr : Option RunAttr := none
  TOOL_NAME : Option String := none
  TOOL_DESCRIPTION : Option String := none
  TOOL_ORDER : Option Int := none
deriving DecidableEq, Repr

/-- `importlib.import_module`: resolving a module name either yields the
loaded module or raises, in which case only `str(e)` is observed by the
loader. -/
def ImportEnv : Type := String → Except String PyModule

/-- The constants `MODULE_PATTERN_PREFIX = 'code'` and
`MODULE_PATTERN_SUFFIX = '.py'` of `app.py`. -/
def MODULE_PATTERN_PREF : String := "code"

/-- See `MODULE_PATTERN_PREF`. -/
def MODULE_PATTERN_SUFFIX : String := ".py"

/-- `DEFAULT_TOOL_ORDER = 999`. -/
def DEFAULT_TOOL_ORDER : Int := 999

/-- The maximal leading run of digits of a character list. -/
def digitsTake : List Char → List Char
  | [] => []
  | c :: cs => if c.isDigit then c :: digitsTake cs else []

/-- The numeric value of a digit run, as `int` computes it. -/
def digitsVal (ds : List Char) : Nat :=
  ds.foldl (fun acc c => acc * 10 + (c.toNat - 48)) 0

/-- The regex search of `extract_code_number`:
`re.search(r'code(\d+)', filename)` scans positions left to right and
matches at the first position where the literal `code` is immediately
followed by at least one digit; group 1 is then the maximal digit run
(`\d+` is greedy). Returns the value of group 1. -/
def findCodeMatch : List Char → Option Nat
  | [] => none
  | c :: cs =>
    match c :: cs with
    | 'c' :: 'o' :: 'd' :: 'e' :: d :: ds =>
      if d.isDigit then some (digitsVal (d :: digitsTake ds)) else findCodeMatch cs
    | _ => findCodeMatch cs

/-- `extract_code_number(filename)` of `app.py`: the matched number, or
`999999` when the regex finds no match. -/
def extract_code_number (filename : String) : Nat :=
  match findCodeMatch filename.data with
  | some n => n
  | none => 999999

/-- The scanner predicate of `discover_and_load_modules`:
`f.startswith(MODULE_PATTERN_PREFIX) and f.endswith(MODULE_PATTERN_SUFFIX)`. -/
def matchesPattern (f : String) : Bool :=
  MODULE_PATTERN_PREF.data.isPrefixOf f.data &&
    MODULE_PATTERN_SUFFIX.data.isSuffixOf f.data

/-- `file[:-3]`: the candidate name with its last three characters (the
`.py` extension) removed, used as the module name. -/
def moduleNameOf (file : String) : String :=
  String.mk (file.data.take (file.data.length - 3))

/-- `module_name.replace('_', ' ')`. -/
def underscoreToSpace (s : String) : String :=
  String.mk (s.data.map fun c => if c = '_' then ' ' else c)

/-- One pass of Python `str.title()`: an alphabetic character is
uppercased when the preceding character is not alphabetic and lowercased
otherwise; other characters are kept. The boolean carries whether the
previous character was alphabetic. -/
def titleAux : Bool → List Char → List Char
  | _, [] => []
  | prevAlpha, c :: cs =>
    (if c.isAlpha then (if prevAlpha then c.toLower else c.toUpper) else c) ::
      titleAux c.isAlpha cs

/-- Python `s.title()`. -/
def pyTitle (s : String) : String := String.mk (titleAux false s.data)

/-- The fallback display name of `discover_and_load_modules`:
`module_name.replace('_', ' ').title()`. -/
def defaultDisplayName (module_name : String) : String :=
  pyTitle (underscoreToSpace module_name)

/-- The message `f"❌ Failed to load '{module_name}': {str(e)}"`. -/
def loadFailMsg (module_name err : String) : String :=
  "❌ Failed to load " ++ apo ++ module_name ++ apo ++ ": " ++ err

/-- The message `f"⚠️ Module '{module_name}' missing required 'run()' function"`. -/
def missingRunMsg (module_name : String) : String :=
  "⚠️ Module " ++ apo ++ module_name ++ apo ++ " missing required " ++ apo ++
    "run()" ++ apo ++ " function"

/-- The message `f"⚠️ Module '{module_name}' has 'run' but it's not callable"`. -/
def notCallableMsg (module_name : String) : String :=
  "⚠️ Module " ++ apo ++ module_name ++ apo ++ " has " ++ apo ++ "run" ++ apo ++
    " but it" ++ apo ++ "s not callable"

/-- The registry entry built for a validated module: the dictionary
`{'module': ..., 'description': ..., 'order': ..., 'file': ...,
'code_number': ...}` of `discover_and_load_modules`. -/
structure Entry where
  module : PyModule
  description : String
  order : Int
  file : String
  code_number : Nat
deriving DecidableEq, Repr

/-- The metadata extraction
`getattr(module_instance, 'TOOL_NAME', module_name.replace('_', ' ').title())`:
the declared override whenever the attribute is present, the derived name
otherwise. -/
def displayOf (module_instance : PyModule) (module_name : String) : String :=
  match module_instance.TOOL_NAME with
  | some s => s
  | none => defaultDisplayName module_name

/-- The registry entry dictionary built for a validated module:
`{'module': ..., 'description': getattr(..., 'TOOL_DESCRIPTION', ''),
'order': getattr(..., 'TOOL_ORDER', DEFAULT_TOOL_ORDER), 'file': file,
'code_number': extract_code_number(file)}`. -/
def entryOf (module_instance : PyModule) (file : String) : Entry :=
  { module := module_instance,
    description :=
      match module_instance.TOOL_DESCRIPTION with
      | some s => s
      | none => "",
    order :=
      match module_instance.TOOL_ORDER with
      | some o => o
      | none => DEFAULT_TOOL_ORDER,
    file := file,
    code_number := extract_code_number file }

/-- Processing of one candidate inside the loop of
`discover_and_load_modules`: import the module (named `file[:-3]`),
validate the `run` attribute, extract metadata, and either produce the
display name and registry entry or the error message appended to
`errors`. -/
def processFile (env : ImportEnv) (file : String) : Except String (String × Entry) :=
  match env (moduleNameOf file) with
  | .error e => .error (loadFailMsg (moduleNameOf file) e)
  | .ok module_instance =>
    match module_instance.runAttr with
    | none => .error (missingRunMsg (moduleNameOf file))
    | some .notCallable => .error (notCallableMsg (moduleNameOf file))
    | some (.callable _) =>
      .ok (displayOf module_instance (moduleNameOf file), entryOf module_instance file)

/-- Insertion into a Python `dict` viewed as an insertion-ordered
association list: an existing key keeps its position and gets the new
value; a new key is appended at the end. -/
def dictInsert (k : String) (v : Entry) : List (String × Entry) → List (String × Entry)
  | [] => [(k, v)]
  | (k1, v1) :: rest =>
    if k1 = k then (k1, v) :: rest else (k1, v1) :: dictInsert k v rest

/-- Python `dict` lookup on the association-list model. -/
def dictFind (k : String) : List (String × Entry) → Option Entry
  | [] => none
  | (k1, v) :: rest => if k1 = k then some v else dictFind k rest

/-- The accumulator of the discovery loop: the `modules` dict and the
`errors` list. -/
structure LoadState where
  modules : List (String × Entry)
  errors : List String
deriving DecidableEq, Repr

/-- One iteration of `for file in sorted(module_files)`. -/
def processCandidate (env : ImportEnv) (st : LoadState) (file : String) : LoadState :=
  match processFile env file with
  | .ok (display_name, entry) =>
    { st with modules := dictInsert display_name entry st.modules }
  | .error msg => { st with errors := st.errors ++ [msg] }

/-- Lexicographic comparison of two character lists by code point, the
comparison Python uses on `str`. -/
def strLtChars : List Char → List Char → Bool
  | [], [] => false
  | [], _ :: _ => true
  | _ :: _, [] => false
  | a :: as, b :: bs => if a = b then strLtChars as bs else decide (a.toNat < b.toNat)

/-- Python `<` on strings. -/
def strLt (a b : String) : Bool := strLtChars a.data b.data

/-- Python `<=` on strings. -/
def strLe (a b : String) : Bool := strLt a b || decide (a = b)

/-- `strLe` as a relation, for the sort of the candidate file names. -/
def strLeP (a b : String) : Prop := strLe a b = true

instance : DecidableRel strLeP := fun a b => instDecidableEqBool (strLe a b) true

/-- The sort key of the final `sorted` call of `discover_and_load_modules`:
`(x[1]['code_number'], x[1]['order'], x[0])`. -/
def sortKey (x : String × Entry) : Nat × Int × String :=
  (x.2.code_number, x.2.order, x.1)

/-- Python tuple `<` on the sort keys: lexicographic on
(code number, declared order, display name). -/
def keyLt (a b : Nat × Int × String) : Bool :=
  decide (a.1 < b.1) ||
    (decide (a.1 = b.1) &&
      (decide (a.2.1 < b.2.1) ||
        (decide (a.2.1 = b.2.1) && strLt a.2.2 b.2.2)))

/-- Python tuple `<=` on the sort keys. -/
def keyLe (a b : Nat × Int × String) : Bool :=
  keyLt a b || decide (a = b)

/-- Key comparison lifted to dict items, as `sorted(modules.items(), key=...)`
compares them. -/
def entryLe (x y : String × Entry) : Bool := keyLe (sortKey x) (sortKey y)

/-- `entryLe` as a relation, for the final sort of the registry. -/
def entryLeP (x y : String × Entry) : Prop := entryLe x y = true

instance : DecidableRel entryLeP := fun x y => instDecidableEqBool (entryLe x y) true

/-- `module_files`: the directory listing filtered by the naming pattern. -/
def moduleFilesOf (listing : List String) : List String :=
  listing.filter matchesPattern

/-- `sorted(module_files)`: the order in which candidates are processed.
Python's `sorted` is a stable sort by `<` on strings; it is modelled by a
stable insertion sort over the same comparison. -/
def scanOrder (listing : List String) : List String :=
  (moduleFilesOf listing).insertionSort strLeP

/-- The discovery loop of `discover_and_load_modules`, starting from the
empty `modules` dict and empty `errors` list. -/
def loadAll (env : ImportEnv) (listing : List String) : LoadState :=
  (scanOrder listing).foldl (processCandidate env) ⟨[], []⟩

/-- `discover_and_load_modules`: the registry (the `modules` dict rebuilt
in ascending order of `(code_number, order, display name)`, again by a
stable sort) and the error list. The directory listing and the import
environment are explicit inputs. -/
def discover_and_load_modules (env : ImportEnv) (listing : List String) :
    List (String × Entry) × List String :=
  ((loadAll env listing).modules.insertionSort entryLeP, (loadAll env listing).errors)

/-- The error message a candidate contributes, when it contributes one. -/
def errOf (env : ImportEnv) (f : String) : Option String :=
  match processFile env f with
  | .ok _ => none
  | .error msg => some msg

/-- The registry insertion a candidate performs, when it performs one. -/
def okOf (env : ImportEnv) (f : String) : Option (String × Entry) :=
  match processFile env f with
  | .ok p => some p
  | .error _ => none

/-! ### The comparisons used by the two sorts are total preorders -/

theorem char_eq_of_toNat_eq {a b : Char} (h : a.toNat = b.toNat) : a = b :=
  Char.ext (UInt32.ext h)

theorem strLtChars_irrefl : ∀ l : List Char, strLtChars l l = false
  | [] => rfl
  | c :: cs => by simp [strLtChars, strLtChars_irrefl cs]

theorem strLtChars_trans : ∀ a b c : List Char, strLtChars a b = true →
    strLtChars b c = true → strLtChars a c = true
  | [], [], _, h1, _ => by simp [strLtChars] at h1
  | [], _ :: _, [], _, h2 => by simp [strLtChars] at h2
  | [], _ :: _, _ :: _, _, _ => rfl
  | _ :: _, [], _, h1, _ => by simp [strLtChars] at h1
  | _ :: _, _ :: _, [], _, h2 => by simp [strLtChars] at h2
  | x :: xs, y :: ys, z :: zs, h1, h2 => by
    simp only [strLtChars] at h1 h2 ⊢
    by_cases hxy : x = y
    · subst hxy
      by_cases hxz : x = z
      · subst hxz
        simp only [if_pos rfl] at h1 h2 ⊢
        exact strLtChars_trans xs ys zs h1 h2
      · simpa [hxz] using h2
    · by_cases hyz : y = z
      · subst hyz
        simpa [hxy] using h1
      · simp only [if_neg hxy, decide_eq_true_eq] at h1
        simp only [if_neg hyz, decide_eq_true_eq] at h2
        have hxz : x.toNat < z.toNat := Nat.lt_trans h1 h2
        have hne : x ≠ z := fun he => by subst he; omega
        simp [hne, hxz]

theorem strLtChars_tri : ∀ a b : List Char,
    strLtChars a b = true ∨ a = b ∨ strLtChars b a = true
  | [], [] => Or.inr (Or.inl rfl)
  | [], _ :: _ => Or.inl rfl
  | _ :: _, [] => Or.inr (Or.inr rfl)
  | x :: xs, y :: ys => by
    by_cases hxy : x = y
    · subst hxy
      rcases strLtChars_tri xs ys with h | h | h
      · exact Or.inl (by simp [strLtChars, h])
      · exact Or.inr (Or.inl (by rw [h]))
      · exact Or.inr (Or.inr (by simp [strLtChars, h]))
    · rcases Nat.lt_trichotomy x.toNat y.toNat with h | h | h
      · exact Or.inl (by simp [strLtChars, hxy, h])
      · exact absurd (char_eq_of_toNat_eq h) hxy
      · refine Or.inr (Or.inr ?_)
        have hyx : y ≠ x := fun he => hxy he.symm
        simp [strLtChars, hyx, h]

theorem strLt_irrefl (a : String) : strLt a a = false := strLtChars_irrefl a.data

theorem strLt_trans {a b c : String} (h1 : strLt a b = true) (h2 : strLt b c = true) :
    strLt a c = true := strLtChars_trans a.data b.data c.data h1 h2

theorem strLt_asymm {a b : String} (h1 : strLt a b = true) : strLt b a ≠ true := by
  intro h2
  have := strLt_trans h1 h2
  rw [strLt_irrefl] at this
  exact Bool.false_ne_true this

theorem string_data_inj {a b : String} (h : a.data = b.data) : a = b :=
  String.toList_inj.mp h

theorem strLe_total (a b : String) : strLe a b = true ∨ strLe b a = true := by
  rcases strLtChars_tri a.data b.data with h | h | h
  · exact Or.inl (by simp [strLe, strLt, h])
  · exact Or.inl (by simp [strLe, string_data_inj h])
  · exact Or.inr (by simp [strLe, strLt, h])

theorem strLe_trans {a b c : String} (h1 : strLe a b = true) (h2 : strLe b c = true) :
    strLe a c = true := by
  simp only [strLe, Bool.or_eq_true, decide_eq_true_eq] at h1 h2 ⊢
  rcases h1 with h1 | rfl
  · rcases h2 with h2 | rfl
    · exact Or.inl (strLt_trans h1 h2)
    · exact Or.inl h1
  · exact h2

theorem strLe_antisymm {a b : String} (h1 : strLe a b = true) (h2 : strLe b a = true) :
    a = b := by
  simp only [strLe, Bool.or_eq_true, decide_eq_true_eq] at h1 h2
  rcases h1 with h1 | rfl
  · rcases h2 with h2 | rfl
    · exact absurd h2 (strLt_asymm h1)
    · rfl
  · rfl

instance : IsTotal String strLeP := ⟨strLe_total⟩

instance : IsTrans String strLeP := ⟨fun _ _ _ => strLe_trans⟩

instance : IsAntisymm String strLeP := ⟨fun _ _ => strLe_antisymm⟩

theorem keyLt_irrefl (a : Nat × Int × String) : keyLt a a = false := by
  simp [keyLt, strLt_irrefl]

theorem keyLt_trans {a b c : Nat × Int × String} (h1 : keyLt a b = true)
    (h2 : keyLt b c = true) : keyLt a c = true := by
  obtain ⟨a1, a2, a3⟩ := a
  obtain ⟨b1, b2, b3⟩ := b
  obtain ⟨c1, c2, c3⟩ := c
  simp only [keyLt, Bool.or_eq_true, Bool.and_eq_true, decide_eq_true_eq] at h1 h2 ⊢
  rcases h1 with h1 | ⟨rfl, h1⟩
  · rcases h2 with h2 | ⟨rfl, _⟩
    · exact Or.inl (Nat.lt_trans h1 h2)
    · exact Or.inl h1
  · rcases h2 with h2 | ⟨rfl, h2⟩
    · exact Or.inl h2
    · refine Or.inr ⟨rfl, ?_⟩
      rcases h1 with h1 | ⟨rfl, h1⟩
      · rcases h2 with h2 | ⟨rfl, _⟩
        · exact Or.inl (Int.lt_trans h1 h2)
        · exact Or.inl h1
      · rcases h2 with h2 | ⟨rfl, h2⟩
        · exact Or.inl h2
        · exact Or.inr ⟨rfl, strLt_trans h1 h2⟩

theorem keyLt_tri (a b : Nat × Int × String) :
    keyLt a b = true ∨ a = b ∨ keyLt b a = true := by
  obtain ⟨a1, a2, a3⟩ := a
  obtain ⟨b1, b2, b3⟩ := b
  rcases Nat.lt_trichotomy a1 b1 with h1 | rfl | h1
  · exact Or.inl (by simp [keyLt, h1])
  · rcases Int.lt_trichotomy a2 b2 with h2 | rfl | h2
    · exact Or.inl (by simp [keyLt, h2])
    · rcases strLtChars_tri a3.data b3.data with h3 | h3 | h3
      · exact Or.inl (by simp [keyLt, strLt, h3])
      · exact Or.inr (Or.inl (by rw [string_data_inj h3]))
      · exact Or.inr (Or.inr (by simp [keyLt, strLt, h3]))
    · exact Or.inr (Or.inr (by simp [keyLt, h2]))
  · exact Or.inr (Or.inr (by simp [keyLt, h1]))

theorem keyLt_asymm {a b : Nat × Int × String} (h1 : keyLt a b = true) :
    keyLt b a ≠ true := by
  intro h2
  have := keyLt_trans h1 h2
  rw [keyLt_irrefl] at this
  exact Bool.false_ne_true this

theorem keyLe_total (a b : Nat × Int × String) : keyLe a b = true ∨ keyLe b a = true := by
  rcases keyLt_tri a b with h | rfl | h
  · exact Or.inl (by simp [keyLe, h])
  · exact Or.inl (by simp [keyLe])
  · exact Or.inr (by simp [keyLe, h])

theorem keyLe_trans {a b c : Nat × Int × String} (h1 : keyLe a b = true)
    (h2 : keyLe b c = true) : keyLe a c = true := by
  simp only [keyLe, Bool.or_eq_true, decide_eq_true_eq] at h1 h2 ⊢
  rcases h1 with h1 | rfl
  · rcases h2 with h2 | rfl
    · exact Or.inl (keyLt_trans h1 h2)
    · exact Or.inl h1
  · exact h2

theorem keyLt_of_keyLe_of_ne {a b : Nat × Int × String} (h1 : keyLe a b = true)
    (h2 : a ≠ b) : keyLt a b = true := by
  simp only [keyLe, Bool.or_eq_true, decide_eq_true_eq] at h1
  rcases h1 with h1 | rfl
  · exact h1
  · exact absurd rfl h2

instance : IsTotal (String × Entry) entryLeP :=
  ⟨fun x y => keyLe_total (sortKey x) (sortKey y)⟩

instance : IsTrans (String × Entry) entryLeP :=
  ⟨fun _ _ _ => keyLe_trans⟩

/-! ### Behaviour of the insertion-ordered dict -/

theorem dictInsert_cons_self {k : String} {v v1 : Entry} {rest : List (String × Entry)} :
    dictInsert k v ((k, v1) :: rest) = (k, v) :: rest := by
  rw [dictInsert, if_pos rfl]

theorem dictInsert_cons_ne {k1 k : String} (h : k1 ≠ k) {v v1 : Entry}
    {rest : List (String × Entry)} :
    dictInsert k v ((k1, v1) :: rest) = (k1, v1) :: dictInsert k v rest := by
  rw [dictInsert, if_neg h]

theorem dictFind_cons_self {k : String} {v : Entry} {rest : List (String × Entry)} :
    dictFind k ((k, v) :: rest) = some v := by
  rw [dictFind, if_pos rfl]

theorem dictFind_cons_ne {k1 k : String} (h : k1 ≠ k) {v : Entry}
    {rest : List (String × Entry)} :
    dictFind k ((k1, v) :: rest) = dictFind k rest := by
  rw [dictFind, if_neg h]

theorem dictFind_insert_self (k : String) (v : Entry) :
    ∀ l, dictFind k (dictInsert k v l) = some v
  | [] => by rw [dictInsert, dictFind, if_pos rfl]
  | (k1, v1) :: rest => by
    by_cases h : k1 = k
    · subst h; rw [dictInsert_cons_self, dictFind_cons_self]
    · rw [dictInsert_cons_ne h, dictFind_cons_ne h, dictFind_insert_self k v rest]

theorem dictFind_insert_other {k1 k : String} (h : k1 ≠ k) (v : Entry) :
    ∀ l, dictFind k1 (dictInsert k v l) = dictFind k1 l
  | [] => by
    rw [dictInsert, dictFind_cons_ne (fun he => h he.symm)]
  | (k2, v2) :: rest => by
    by_cases h2 : k2 = k
    · subst h2
      have hne : k2 ≠ k1 := fun he => h he.symm
      rw [dictInsert_cons_self, dictFind_cons_ne hne, dictFind_cons_ne hne]
    · by_cases h3 : k2 = k1
      · subst h3
        rw [dictInsert_cons_ne h2, dictFind_cons_self, dictFind_cons_self]
      · rw [dictInsert_cons_ne h2, dictFind_cons_ne h3, dictFind_cons_ne h3,
          dictFind_insert_other h v rest]

theorem mem_keys_dictInsert {x k : String} {v : Entry} :
    ∀ l, (x ∈ (dictInsert k v l).map Prod.fst ↔ x = k ∨ x ∈ l.map Prod.fst)
  | [] => by rw [dictInsert]; simp
  | (k1, v1) :: rest => by
    by_cases h : k1 = k
    · subst h
      rw [dictInsert_cons_self]
      simp only [List.map_cons, List.mem_cons]
      tauto
    · rw [dictInsert_cons_ne h]
      simp only [List.map_cons, List.mem_cons, mem_keys_dictInsert rest]
      tauto

theorem nodup_keys_dictInsert {k : String} {v : Entry} :
    ∀ l, ((l.map Prod.fst).Nodup) → ((dictInsert k v l).map Prod.fst).Nodup
  | [], _ => by rw [dictInsert]; simp
  | (k1, v1) :: rest, h => by
    simp only [List.map_cons, List.nodup_cons] at h
    by_cases he : k1 = k
    · subst he
      rw [dictInsert_cons_self]
      simp only [List.map_cons, List.nodup_cons]
      exact h
    · rw [dictInsert_cons_ne he]
      simp only [List.map_cons, List.nodup_cons]
      refine ⟨?_, nodup_keys_dictInsert rest h.2⟩
      intro hmem
      rcases (mem_keys_dictInsert rest).mp hmem with h1 | h1
      · exact he h1
      · exact h.1 h1

theorem mem_dictInsert {p : String × Entry} {k : String} {v : Entry} :
    ∀ l, p ∈ dictInsert k v l → p = (k, v) ∨ p ∈ l
  | [], h => by
    rw [dictInsert] at h
    simpa using h
  | (k1, v1) :: rest, h => by
    by_cases he : k1 = k
    · subst he
      rw [dictInsert_cons_self] at h
      rcases List.mem_cons.mp h with h | h
      · exact Or.inl h
      · exact Or.inr (List.mem_cons_of_mem _ h)
    · rw [dictInsert_cons_ne he] at h
      rcases List.mem_cons.mp h with h | h
      · exact Or.inr (by simp [h])
      · rcases mem_dictInsert rest h with h1 | h1
        · exact Or.inl h1
        · exact Or.inr (List.mem_cons_of_mem _ h1)

/-! ### Behaviour of the discovery loop -/

/-- The registry-only effect of one loop iteration: a successful candidate
inserts into the dict, a failing one leaves it unchanged. -/
def regStep (env : ImportEnv) (ms : List (String × Entry)) (f : String) :
    List (String × Entry) :=
  match processFile env f with
  | .ok (n, e) => dictInsert n e ms
  | .error _ => ms

theorem foldl_errors (env : ImportEnv) :
    ∀ (files : List String) (st : LoadState),
      (files.foldl (processCandidate env) st).errors =
        st.errors ++ files.filterMap (errOf env)
  | [], st => by simp
  | f :: fs, st => by
    rw [List.foldl_cons, foldl_errors env fs]
    unfold processCandidate errOf
    match h : processFile env f with
    | .ok p => simp [h]
    | .error msg => simp [h]

theorem foldl_modules (env : ImportEnv) :
    ∀ (files : List String) (st : LoadState),
      (files.foldl (processCandidate env) st).modules =
        files.foldl (regStep env) st.modules
  | [], st => by simp
  | f :: fs, st => by
    rw [List.foldl_cons, List.foldl_cons, foldl_modules env fs]
    unfold processCandidate regStep
    match h : processFile env f with
    | .ok p => simp [h]
    | .error msg => simp [h]

/-- The entry a single candidate contributes under a given display name. -/
def successFor (env : ImportEnv) (name f : String) : Option Entry :=
  match processFile env f with
  | .ok (n, e) => if n = name then some e else none
  | .error _ => none

/-- The entry the dict holds for `name` after processing `files` in order:
the contribution of the latest contributing candidate. -/
def lastSuccess (env : ImportEnv) (name : String) : List String → Option Entry
  | [] => none
  | f :: fs => (lastSuccess env name fs).or (successFor env name f)

theorem lastSuccess_append (env : ImportEnv) (name : String) :
    ∀ l1 l2, lastSuccess env name (l1 ++ l2) =
      (lastSuccess env name l2).or (lastSuccess env name l1)
  | [], l2 => by simp [lastSuccess]
  | f :: fs, l2 => by
    show (lastSuccess env name (fs ++ l2)).or (successFor env name f) = _
    rw [lastSuccess_append env name fs l2, Option.or_assoc]
    rfl

theorem lastSuccess_none (env : ImportEnv) (name : String) :
    ∀ l, (∀ g ∈ l, successFor env name g = none) → lastSuccess env name l = none
  | [], _ => rfl
  | f :: fs, h => by
    simp only [lastSuccess, lastSuccess_none env name fs fun g hg =>
      h g (List.mem_cons_of_mem _ hg), h f (List.mem_cons_self _ _), Option.or_none]

theorem dictFind_foldl (env : ImportEnv) (name : String) :
    ∀ (files : List String) (ms : List (String × Entry)),
      dictFind name (files.foldl (regStep env) ms) =
        (lastSuccess env name files).or (dictFind name ms)
  | [], ms => by simp [lastSuccess]
  | f :: fs, ms => by
    rw [List.foldl_cons, dictFind_foldl env name fs]
    have hstep : dictFind name (regStep env ms f) =
        (successFor env name f).or (dictFind name ms) := by
      unfold regStep successFor
      match h : processFile env f with
      | .error msg => simp
      | .ok (n, e) =>
        by_cases hn : n = name
        · subst hn; simp [dictFind_insert_self]
        · simp [hn, dictFind_insert_other (fun he => hn he.symm)]
    rw [hstep, lastSuccess, Option.or_assoc]

theorem mem_foldl_regStep (env : ImportEnv) :
    ∀ (files : List String) (ms : List (String × Entry)) (p : String × Entry),
      p ∈ files.foldl (regStep env) ms →
        p ∈ ms ∨ ∃ f ∈ files, processFile env f = .ok p
  | [], ms, p, h => Or.inl (by simpa using h)
  | f :: fs, ms, p, h => by
    rw [List.foldl_cons] at h
    rcases mem_foldl_regStep env fs (regStep env ms f) p h with h1 | ⟨g, hg, hgp⟩
    · unfold regStep at h1
      match hpf : processFile env f with
      | .ok (n, e) =>
        rw [hpf] at h1
        rcases mem_dictInsert _ h1 with h2 | h2
        · exact Or.inr ⟨f, List.mem_cons_self _ _, by rw [hpf, h2]⟩
        · exact Or.inl h2
      | .error msg => exact Or.inl (by rwa [hpf] at h1)
    · exact Or.inr ⟨g, List.mem_cons_of_mem _ hg, hgp⟩

theorem nodup_keys_foldl (env : ImportEnv) :
    ∀ (files : List String) (ms : List (String × Entry)),
      ((ms.map Prod.fst).Nodup) →
        ((files.foldl (regStep env) ms).map Prod.fst).Nodup
  | [], ms, h => h
  | f :: fs, ms, h => by
    rw [List.foldl_cons]
    refine nodup_keys_foldl env fs _ ?_
    unfold regStep
    match hpf : processFile env f with
    | .ok (n, e) => exact nodup_keys_dictInsert _ h
    | .error msg => exact h

theorem dictFind_mem {k : String} {v : Entry} :
    ∀ l, dictFind k l = some v → (k, v) ∈ l
  | [], h => by simp [dictFind] at h
  | (k1, v1) :: rest, h => by
    rw [dictFind] at h
    by_cases he : k1 = k
    · rw [if_pos he] at h
      subst he
      injection h with h
      subst h
      exact List.mem_cons_self _ _
    · rw [if_neg he] at h
      exact List.mem_cons_of_mem _ (dictFind_mem rest h)

/-! ### The dispatcher (`run_selected_module`) -/

/-- Invoking `module_data['module'].run()`: a callable attribute runs its
behaviour; calling a non-callable raises a `TypeError` and accessing a
missing attribute raises an `AttributeError`, both ordinary exceptions
reaching the same `except` clause. (Registry entries always hold a
callable `run`, so only the first arm is reachable from the registry.) -/
def invokeRun (m : PyModule) : Except PyExc Unit :=
  match m.runAttr with
  | some (.callable behavior) => behavior
  | some .notCallable =>
    .error { typeName := "TypeError", msg := "object is not callable", tb := "" }
  | none =>
    .error { typeName := "AttributeError", msg := "module has no attribute run", tb := "" }

/-- `run_selected_module` of `app.py`, modelled as the list of
operator-facing outputs it emits: nothing on success; on a raised
exception the four `st.error`/`st.code` payloads (header, error type,
message, full traceback) and the static remediation tip. The function is
total: no failure propagates out of it. -/
def run_selected_module (module_data : Entry) (module_name : String) : List String :=
  match invokeRun module_data.module with
  | .ok _ => []
  | .error e =>
    [ "### Error running " ++ apo ++ module_name ++ apo,
      "**Error type:** " ++ e.typeName,
      "**Message:** " ++ e.msg,
      e.tb,
      "💡 **Tip:** Check the module" ++ apo ++ "s code or contact the module developer." ]

/-- A sequence of request cycles: each cycle dispatches one selection and
the host continues with the next. -/
def dispatchCycles (selections : List (Entry × String)) : List (List String) :=
  selections.map fun p => run_selected_module p.1 p.2

/-! ### The registry cache -/

/-- The cache state of the host process: the memoized result of
`discover_and_load_modules`, plus a counter of actual discovery passes
(the load-counter stub the spec's testable property asks for). -/
structure HostState where
  cache : Option (List (String × Entry) × List String)
  discoveryRuns : Nat
deriving DecidableEq

/-- Modelled from the spec: the `@st.cache_resource` decorator applied to
`discover_and_load_modules` (app.py line 52) is streamlit library code not
present in this repository. Per the spec (§4.5) it memoizes the decorated
function for the host process lifetime: a read returns the cached Registry
when one is present, and otherwise runs discovery once, stores the result
and returns it. -/
def readRegistry (env : ImportEnv) (listing : List String) (st : HostState) :
    (List (String × Entry) × List String) × HostState :=
  match st.cache with
  | some r => (r, st)
  | none =>
    let r := discover_and_load_modules env listing
    (r, { cache := some r, discoveryRuns := st.discoveryRuns + 1 })

/-- `n` consecutive reads of the registry, returning every read's result
and the final host state. -/
def readMany (env : ImportEnv) (listing : List String) :
    Nat → HostState → List (List (String × Entry) × List String) × HostState
  | 0, st => ([], st)
  | n + 1, st =>
    let first := readRegistry env listing st
    let rest := readMany env listing n first.2
    (first.1 :: rest.1, rest.2)

/-! ### The display-name rule as the spec words it -/

/-- Modelled from the spec (for comparison with the code): "display_name:
the unit's declared override if present and non-empty; otherwise the
candidate name with its extension stripped, underscores replaced by
spaces, and each word capitalized." -/
def specDisplayName (m : PyModule) (module_name : String) : String :=
  match m.TOOL_NAME with
  | some s => if s ≠ "" then s else defaultDisplayName module_name
  | none => defaultDisplayName module_name

/-! ### Shape of the per-candidate outcomes -/

theorem processFile_ok_elim {env : ImportEnv} {file : String} {p : String × Entry}
    (h : processFile env file = .ok p) :
    ∃ m b, env (moduleNameOf file) = .ok m ∧ m.runAttr = some (.callable b) ∧
      p = (displayOf m (moduleNameOf file), entryOf m file) := by
  unfold processFile at h
  cases henv : env (moduleNameOf file) with
  | error e => rw [henv] at h; simp at h
  | ok m =>
    rw [henv] at h
    dsimp only at h
    cases hra : m.runAttr with
    | none => rw [hra] at h; simp at h
    | some ra =>
      cases ra with
      | notCallable => rw [hra] at h; simp at h
      | callable b =>
        rw [hra] at h
        simp only [Except.ok.injEq] at h
        exact ⟨m, b, rfl, hra, h.symm⟩

theorem processFile_import_error {env : ImportEnv} {file e : String}
    (h : env (moduleNameOf file) = .error e) :
    processFile env file = .error (loadFailMsg (moduleNameOf file) e) := by
  unfold processFile
  rw [h]

theorem processFile_missing_run {env : ImportEnv} {file : String} {m : PyModule}
    (hm : env (moduleNameOf file) = .ok m) (hr : m.runAttr = none) :
    processFile env file = .error (missingRunMsg (moduleNameOf file)) := by
  unfold processFile
  rw [hm]
  dsimp only
  rw [hr]

theorem processFile_not_callable {env : ImportEnv} {file : String} {m : PyModule}
    (hm : env (moduleNameOf file) = .ok m) (hr : m.runAttr = some .notCallable) :
    processFile env file = .error (notCallableMsg (moduleNameOf file)) := by
  unfold processFile
  rw [hm]
  dsimp only
  rw [hr]

/-! ### The two contract-violation messages are distinctly worded -/

theorem missingRunMsg_last (a : String) :
    (missingRunMsg a).data.getLast? = some (Char.ofNat 110) := by
  rw [missingRunMsg, String.data_append, List.getLast?_append]
  have h : (" function" : String).data.getLast? = some (Char.ofNat 110) := by decide
  rw [h, Option.or]

theorem notCallableMsg_last (b : String) :
    (notCallableMsg b).data.getLast? = some (Char.ofNat 101) := by
  rw [notCallableMsg, String.data_append, List.getLast?_append]
  have h : ("s not callable" : String).data.getLast? = some (Char.ofNat 101) := by decide
  rw [h, Option.or]

theorem missingRunMsg_ne_notCallableMsg (a b : String) :
    missingRunMsg a ≠ notCallableMsg b := by
  intro h
  have h1 := congrArg (fun s => s.data.getLast?) h
  simp only at h1
  rw [missingRunMsg_last, notCallableMsg_last] at h1
  exact absurd h1 (by decide)

/-! ### Concrete import environments used as witnesses -/

/-- A module declaring only a callable, normally returning `run`. -/
def plainModule : PyModule := { runAttr := some (.callable (.ok ())) }

/-- The spec's ordering example: `code2` declares no priority, `code10`
declares priority 1. -/
def exampleEnv : ImportEnv := fun name =>
  if name = "code2" then .ok plainModule
  else if name = "code10" then .ok { plainModule with TOOL_ORDER := some 1 }
  else .error ("No module named " ++ apo ++ name ++ apo)

/-- Two modules resolving to the same display name `Dup`. -/
def dupEnv : ImportEnv := fun name =>
  if name = "code3" then
    .ok { plainModule with TOOL_NAME := some "Dup", TOOL_DESCRIPTION := some "first" }
  else if name = "code4" then
    .ok { plainModule with TOOL_NAME := some "Dup", TOOL_DESCRIPTION := some "second" }
  else .error ("No module named " ++ apo ++ name ++ apo)

/-- `code8` raises on import; `code9` is healthy. -/
def failEnv : ImportEnv := fun name =>
  if name = "code8" then .error "boom"
  else if name = "code9" then .ok plainModule
  else .error ("No module named " ++ apo ++ name ++ apo)

/-- `code5` lacks `run`; `code6` has a non-callable `run`. -/
def contractEnv : ImportEnv := fun name =>
  if name = "code5" then .ok {}
  else if name = "code6" then .ok { runAttr := some .notCallable }
  else .error ("No module named " ++ apo ++ name ++ apo)

/-- A module whose declared `TOOL_NAME` is present but empty. -/
def emptyNameModule : PyModule := { plainModule with TOOL_NAME := some "" }

/-- An environment serving `emptyNameModule` as `code7`. -/
def emptyNameEnv : ImportEnv := fun name =>
  if name = "code7" then .ok emptyNameModule
  else .error ("No module named " ++ apo ++ name ++ apo)

/-- A registry entry whose `run` raises a `ValueError` when invoked. -/
def raisingEntry : Entry :=
  entryOf
    { runAttr := some (.callable (.error
        { typeName := "ValueError", msg := "bad input",
          tb := "Traceback (most recent call last): ..." })) }
    "code9.py"

/-! ### General facts about discovery used by several claims -/

theorem discover_errors_eq (env : ImportEnv) (listing : List String) :
    (discover_and_load_modules env listing).2 = (scanOrder listing).filterMap (errOf env) := by
  unfold discover_and_load_modules loadAll
  rw [foldl_errors]
  simp

theorem length_filterMap_ok_err (env : ImportEnv) :
    ∀ files : List String,
      (files.filterMap (okOf env)).length + (files.filterMap (errOf env)).length
        = files.length
  | [] => rfl
  | f :: fs => by
    have ih := length_filterMap_ok_err env fs
    unfold okOf errOf
    cases h : processFile env f with
    | ok p =>
      simp only [List.filterMap_cons, h]
      unfold okOf errOf at ih
      simp only [List.length_cons, ih.symm]
      omega
    | error msg =>
      simp only [List.filterMap_cons, h]
      unfold okOf errOf at ih
      simp only [List.length_cons, ih.symm]
      omega

theorem readMany_cached (env : ImportEnv) (listing : List String)
    (r : List (String × Entry) × List String) (k : Nat) :
    ∀ n, readMany env listing n ⟨some r, k⟩ = (List.replicate n r, ⟨some r, k⟩)
  | 0 => rfl
  | n + 1 => by
    simp only [readMany, readRegistry, readMany_cached env listing r k n,
      List.replicate]

/-! ### The claims -/

/-- C2: the claim says the extracted numeric id is the first digit run
immediately following "code", with examples "code10.py" → 10,
"code_app_5.py" → 5, "code.py" → 999999. The code (and its own docstring
example for "code_app_5.py") disagree: the regex requires the digits to
follow the letters `code` immediately, so "code_app_5.py" has no match and
yields the sentinel 999999, not 5. This theorem evaluates the embedded
code at those inputs. -/
theorem c2_extract_code_number_eval :
    extract_code_number "code10.py" = 10 ∧
    extract_code_number "code.py" = 999999 ∧
    extract_code_number "code_app_5.py" = 999999 ∧
    extract_code_number "code_app_5.py" ≠ 5 := by
  refine ⟨by decide, by decide, by decide, by decide⟩

/-- C7: a failure raised by the selected unit's `run` is caught at the
dispatcher boundary — `run_selected_module` is total and returns the
operator-facing report instead of propagating — and the report carries the
failure's class name, its message and the full traceback; dispatching
continues unchanged on subsequent cycles. -/
theorem c7_dispatch_failure_contained (module_data : Entry) (module_name : String)
    (e : PyExc) (h : invokeRun module_data.module = .error e) :
    run_selected_module module_data module_name =
      [ "### Error running " ++ apo ++ module_name ++ apo,
        "**Error type:** " ++ e.typeName,
        "**Message:** " ++ e.msg,
        e.tb,
        "💡 **Tip:** Check the module" ++ apo ++ "s code or contact the module developer." ] ∧
    ("**Error type:** " ++ e.typeName) ∈ run_selected_module module_data module_name ∧
    ("**Message:** " ++ e.msg) ∈ run_selected_module module_data module_name ∧
    e.tb ∈ run_selected_module module_data module_name ∧
    (∀ rest, dispatchCycles ((module_data, module_name) :: rest) =
      run_selected_module module_data module_name :: dispatchCycles rest) := by
  have hrun : run_selected_module module_data module_name =
      [ "### Error running " ++ apo ++ module_name ++ apo,
        "**Error type:** " ++ e.typeName,
        "**Message:** " ++ e.msg,
        e.tb,
        "💡 **Tip:** Check the module" ++ apo ++ "s code or contact the module developer." ] := by
    unfold run_selected_module
    rw [h]
  refine ⟨hrun, ?_, ?_, ?_, fun rest => rfl⟩
  · rw [hrun]; simp
  · rw [hrun]; simp
  · rw [hrun]; simp

/-- C7 witness: a concrete entry raising `ValueError` produces the report
containing its message. -/
theorem c7_witness :
    ("**Message:** bad input") ∈ run_selected_module raisingEntry "Code9" :=
  (c7_dispatch_failure_contained raisingEntry "Code9"
    { typeName := "ValueError", msg := "bad input",
      tb := "Traceback (most recent call last): ..." } rfl).2.2.1

/-- C8: within one host lifetime (modelling `st.cache_resource` as
process-lifetime memoization), any number of registry reads runs the
discovery pipeline at most once, and every read returns the
once-computed registry and error list. -/
theorem c8_discovery_at_most_once (env : ImportEnv) (listing : List String) (n : Nat) :
    (readMany env listing n ⟨none, 0⟩).2.discoveryRuns ≤ 1 ∧
    ∀ r ∈ (readMany env listing n ⟨none, 0⟩).1, r = discover_and_load_modules env listing := by
  cases n with
  | zero => exact ⟨by simp [readMany], by simp [readMany]⟩
  | succ n =>
    have h := readMany_cached env listing (discover_and_load_modules env listing) 1 n
    constructor
    · simp only [readMany, readRegistry, h]
      exact le_refl 1
    · intro r hr
      simp only [readMany, readRegistry, h, List.mem_cons] at hr
      rcases hr with rfl | hr
      · rfl
      · exact List.eq_of_mem_replicate hr

/-- C8 witness: three reads in the example environment leave the
discovery counter at most 1. -/
theorem c8_witness :
    (readMany exampleEnv ["code2.py", "code10.py"] 3 ⟨none, 0⟩).2.discoveryRuns ≤ 1 :=
  (c8_discovery_at_most_once exampleEnv ["code2.py", "code10.py"] 3).1

/-- C10: every candidate matching the discovery pattern is accounted for
exactly once: it performs exactly one registry insertion or contributes
exactly one Load Error — never both, never neither — so insertions plus
errors equals the number of candidates. -/
theorem c10_accounting (env : ImportEnv) (listing : List String) :
    ((scanOrder listing).filterMap (okOf env)).length
        + (discover_and_load_modules env listing).2.length
      = (scanOrder listing).length ∧
    ∀ f, ((okOf env f).isSome ↔ errOf env f = none) ∧
      ((okOf env f).isSome ∨ (errOf env f).isSome) := by
  constructor
  · rw [discover_errors_eq]
    exact length_filterMap_ok_err env _
  · intro f
    unfold okOf errOf
    cases h : processFile env f with
    | ok p => simp
    | error msg => simp

theorem scanOrder_perm_eq {l1 l2 : List String} (h : l1.Perm l2) :
    scanOrder l1 = scanOrder l2 := by
  have hp : (moduleFilesOf l1).Perm (moduleFilesOf l2) := h.filter matchesPattern
  have hperm : (scanOrder l1).Perm (scanOrder l2) :=
    ((List.perm_insertionSort strLeP (moduleFilesOf l1)).trans hp).trans
      (List.perm_insertionSort strLeP (moduleFilesOf l2)).symm
  exact List.eq_of_perm_of_sorted hperm
    (List.sorted_insertionSort strLeP (moduleFilesOf l1))
    (List.sorted_insertionSort strLeP (moduleFilesOf l2))

/-- C9: discovery is insensitive to the order in which the directory
listing returns the entries: any two listings that are permutations of
each other produce the same registry — the same mapping, the same
collision winners, and the same presentation order — and the same error
list. -/
theorem c9_listing_order_irrelevant (env : ImportEnv) {l1 l2 : List String}
    (h : l1.Perm l2) :
    discover_and_load_modules env l1 = discover_and_load_modules env l2 := by
  unfold discover_and_load_modules loadAll
  rw [scanOrder_perm_eq h]

/-- C9 witness: the two orders of the example listing give equal
results. -/
theorem c9_witness :
    discover_and_load_modules exampleEnv ["code10.py", "code2.py"] =
      discover_and_load_modules exampleEnv ["code2.py", "code10.py"] :=
  c9_listing_order_irrelevant exampleEnv (by decide)

/-- C5: a candidate whose import raises is converted into the Load Error
carrying the module name and the failure text; the registry contents are
exactly what they would be without that candidate present — processing
continues, and no other candidate's loading is affected — and the error is
surfaced in the error list. -/
theorem c5_load_failure_isolated (env : ImportEnv) (f e : String)
    (pre post : List String) (h : env (moduleNameOf f) = .error e) :
    processFile env f = .error (loadFailMsg (moduleNameOf f) e) ∧
    ((pre ++ f :: post).foldl (processCandidate env) ⟨[], []⟩).modules =
      ((pre ++ post).foldl (processCandidate env) ⟨[], []⟩).modules ∧
    loadFailMsg (moduleNameOf f) e
      ∈ ((pre ++ f :: post).foldl (processCandidate env) ⟨[], []⟩).errors := by
  have hpf : processFile env f = .error (loadFailMsg (moduleNameOf f) e) :=
    processFile_import_error h
  refine ⟨hpf, ?_, ?_⟩
  · rw [foldl_modules, foldl_modules, List.foldl_append, List.foldl_append,
      List.foldl_cons]
    have hstep : regStep env ((pre.foldl (regStep env) [])) f
        = pre.foldl (regStep env) [] := by
      unfold regStep
      rw [hpf]
    rw [hstep]
  · rw [foldl_errors]
    refine List.mem_append_right _ (List.mem_filterMap.mpr ⟨f, ?_, ?_⟩)
    · exact List.mem_append_right _ (List.mem_cons_self _ _)
    · unfold errOf
      rw [hpf]

/-- C5 witness: with `code8` raising "boom" next to the healthy `code9`,
the failure message is recorded while the loop runs on. -/
theorem c5_witness :
    loadFailMsg "code8" "boom"
      ∈ ((["code8.py"] ++ ["code9.py"]).foldl (processCandidate failEnv) ⟨[], []⟩).errors := by
  have h := (c5_load_failure_isolated failEnv "code8.py" "boom" [] ["code9.py"]
    (by decide)).2.2
  have hname : moduleNameOf "code8.py" = "code8" := by decide
  rw [hname] at h
  simpa using h

/-- C6: a candidate that resolves but lacks a `run` attribute is excluded
from the registry with the distinctly worded missing-entry-point Load
Error; one whose `run` is present but not callable is excluded with the
not-callable Load Error; the error list holds exactly the one error each
failing candidate contributes (it is the in-order concatenation of each
candidate's single optional error); and the two messages never
coincide. -/
theorem c6_contract_violations (env : ImportEnv) (listing : List String)
    (f : String) (m : PyModule) (hm : env (moduleNameOf f) = .ok m) :
    (m.runAttr = none → errOf env f = some (missingRunMsg (moduleNameOf f))) ∧
    (m.runAttr = some .notCallable →
      errOf env f = some (notCallableMsg (moduleNameOf f))) ∧
    (discover_and_load_modules env listing).2 = (scanOrder listing).filterMap (errOf env) ∧
    ((m.runAttr = none ∨ m.runAttr = some .notCallable) →
      ∀ p ∈ (discover_and_load_modules env listing).1, p.2.file ≠ f) ∧
    (∀ a b, missingRunMsg a ≠ notCallableMsg b) := by
  refine ⟨?_, ?_, discover_errors_eq env listing, ?_, missingRunMsg_ne_notCallableMsg⟩
  · intro hr
    unfold errOf
    rw [processFile_missing_run hm hr]
  · intro hr
    unfold errOf
    rw [processFile_not_callable hm hr]
  · intro hv p hp hfile
    have hperm : ((loadAll env listing).modules.insertionSort entryLeP).Perm
        (loadAll env listing).modules := List.perm_insertionSort entryLeP _
    have hp2 : p ∈ (loadAll env listing).modules := hperm.mem_iff.mp hp
    unfold loadAll at hp2
    rw [foldl_modules] at hp2
    rcases mem_foldl_regStep env (scanOrder listing) [] p hp2 with h0 | ⟨g, _, hg⟩
    · simp at h0
    · obtain ⟨m2, b2, hm2, hr2, hpe⟩ := processFile_ok_elim hg
      have hfg : p.2.file = g := by rw [hpe]; rfl
      rw [hfile] at hfg
      rw [← hfg] at hm2
      rw [hm] at hm2
      injection hm2 with hm2
      subst hm2
      rcases hv with hv | hv
      · rw [hv] at hr2; cases hr2
      · rw [hv] at hr2; injection hr2 with hr2; cases hr2

/-- C6 witness: `code5` (no `run`) and `code6` (non-callable `run`) each
leave exactly their distinct message in the error list and no registry
entry. -/
theorem c6_witness :
    errOf contractEnv "code5.py" = some (missingRunMsg "code5") ∧
    errOf contractEnv "code6.py" = some (notCallableMsg "code6") := by
  constructor
  · have h := (c6_contract_violations contractEnv [] "code5.py" {} (by decide)).1 rfl
    have hname : moduleNameOf "code5.py" = "code5" := by decide
    rwa [hname] at h
  · have h := (c6_contract_violations contractEnv [] "code6.py"
      { runAttr := some .notCallable } (by decide)).2.1 rfl
    have hname : moduleNameOf "code6.py" = "code6" := by decide
    rwa [hname] at h

/-- C4 counterexample: the claim (like the spec) requires the declared
override to be used only when present AND non-empty. The code's
`getattr(module_instance, 'TOOL_NAME', ...)` tests presence only: a
module declaring `TOOL_NAME = ""` is registered under the empty display
name, where the claim's rule would produce the derived name "Code7". -/
theorem c4_counterexample :
    (discover_and_load_modules emptyNameEnv ["code7.py"]).1.map Prod.fst = [""] ∧
    specDisplayName emptyNameModule "code7" = "Code7" ∧
    ("" : String) ≠ "Code7" := by
  refine ⟨by decide, by decide, by decide⟩

/-- C4 (amended): every registry entry's display name is the unit's
declared override whenever that override is present — even when it is
empty — and otherwise the candidate file name with its extension
stripped, underscores replaced by spaces, and each word capitalized
(`displayOf`/`defaultDisplayName`). -/
theorem c4_display_name_amended (env : ImportEnv) (listing : List String)
    (name : String) (e : Entry)
    (h : (name, e) ∈ (discover_and_load_modules env listing).1) :
    ∃ m, env (moduleNameOf e.file) = .ok m ∧
      name = displayOf m (moduleNameOf e.file) ∧
      e = entryOf m e.file := by
  have hperm : ((loadAll env listing).modules.insertionSort entryLeP).Perm
      (loadAll env listing).modules := List.perm_insertionSort entryLeP _
  have hp2 : (name, e) ∈ (loadAll env listing).modules := hperm.mem_iff.mp h
  unfold loadAll at hp2
  rw [foldl_modules] at hp2
  rcases mem_foldl_regStep env (scanOrder listing) [] (name, e) hp2 with h0 | ⟨g, _, hg⟩
  · simp at h0
  · obtain ⟨m, b, hm, _, hpe⟩ := processFile_ok_elim hg
    have hfe : e = entryOf m g := congrArg Prod.snd hpe
    have hfg : e.file = g := by rw [hfe]; rfl
    rw [← hfg] at hm
    refine ⟨m, hm, ?_, ?_⟩
    · have := congrArg Prod.fst hpe
      rw [hfg]
      exact this
    · rw [hfg]
      exact hfe

/-- C4 witness: the amended rule instantiated at the example environment,
where `code2` declares no override and derives "Code2". -/
theorem c4_witness :
    ∃ m, exampleEnv (moduleNameOf (entryOf plainModule "code2.py").file) = .ok m ∧
      "Code2" = displayOf m (moduleNameOf (entryOf plainModule "code2.py").file) ∧
      entryOf plainModule "code2.py" = entryOf m (entryOf plainModule "code2.py").file :=
  c4_display_name_amended exampleEnv ["code2.py", "code10.py"] "Code2"
    (entryOf plainModule "code2.py") (by decide)

theorem countP_key_one {name : String} {e : Entry} :
    ∀ {l : List (String × Entry)}, ((l.map Prod.fst).Nodup) → ((name, e) ∈ l) →
      l.countP (fun p => decide (p.1 = name)) = 1 := by
  intro l
  induction l with
  | nil => intro _ hmem; cases hmem
  | cons q rest ih =>
    intro hnd hmem
    simp only [List.map_cons, List.nodup_cons] at hnd
    rcases List.mem_cons.mp hmem with heq | hmem2
    · have hq : q.1 = name := by rw [← heq]
      rw [List.countP_cons_of_pos _ _ (by simp [hq])]
      have hz : rest.countP (fun p => decide (p.1 = name)) = 0 := by
        rw [List.countP_eq_zero]
        intro p hp
        simp only [decide_eq_true_eq]
        intro hpn
        refine hnd.1 ?_
        rw [hq, ← hpn]
        exact List.mem_map_of_mem Prod.fst hp
      rw [hz]
    · have hq : ¬(q.1 = name) := by
        intro hq
        refine hnd.1 ?_
        rw [hq]
        exact List.mem_map.mpr ⟨(name, e), hmem2, rfl⟩
      rw [List.countP_cons_of_neg _ _ (by simpa using hq)]
      exact ih hnd.2 hmem2

/-- C3: when several candidates in the processing order resolve to the
same display name, the registry keeps exactly one entry under that name —
the entry of the latest such candidate (last-write-wins) — and the earlier
candidate generates no Load Error: the error list is exactly the
failing candidates' messages. -/
theorem c3_last_write_wins (env : ImportEnv) (listing : List String)
    (pre mid post : List String) (f1 f2 name : String) (e1 e2 : Entry)
    (hsplit : scanOrder listing = pre ++ f1 :: (mid ++ f2 :: post))
    (h1 : processFile env f1 = .ok (name, e1))
    (h2 : processFile env f2 = .ok (name, e2))
    (hpost : ∀ g ∈ post, successFor env name g = none) :
    (discover_and_load_modules env listing).1.countP (fun p => decide (p.1 = name)) = 1 ∧
    (name, e2) ∈ (discover_and_load_modules env listing).1 ∧
    errOf env f1 = none ∧
    (discover_and_load_modules env listing).2 = (scanOrder listing).filterMap (errOf env) := by
  have hs2 : successFor env name f2 = some e2 := by
    unfold successFor
    rw [h2]
    simp
  have hlast : lastSuccess env name (scanOrder listing) = some e2 := by
    rw [hsplit, lastSuccess_append]
    have hx : lastSuccess env name (f1 :: (mid ++ f2 :: post)) = some e2 := by
      rw [lastSuccess, lastSuccess_append env name mid (f2 :: post), lastSuccess,
        lastSuccess_none env name post hpost, hs2]
      rfl
    rw [hx]
    rfl
  have hfind : dictFind name (loadAll env listing).modules = some e2 := by
    unfold loadAll
    rw [foldl_modules, dictFind_foldl, hlast]
    rfl
  have hnd : (((loadAll env listing).modules).map Prod.fst).Nodup := by
    unfold loadAll
    rw [foldl_modules]
    exact nodup_keys_foldl env (scanOrder listing) [] (by simp)
  have hmem : (name, e2) ∈ (loadAll env listing).modules := dictFind_mem _ hfind
  have hperm : ((loadAll env listing).modules.insertionSort entryLeP).Perm
      (loadAll env listing).modules := List.perm_insertionSort entryLeP _
  refine ⟨?_, hperm.mem_iff.mpr hmem, ?_, discover_errors_eq env listing⟩
  · rw [show (discover_and_load_modules env listing).1
        = (loadAll env listing).modules.insertionSort entryLeP from rfl,
      hperm.countP_eq]
    exact countP_key_one hnd hmem
  · unfold errOf
    rw [h1]

/-- C3 witness: `code3` and `code4` both name themselves "Dup"; the
registry keeps exactly one "Dup" entry. -/
theorem c3_witness :
    (discover_and_load_modules dupEnv ["code4.py", "code3.py"]).1.countP
      (fun p => decide (p.1 = "Dup")) = 1 :=
  (c3_last_write_wins dupEnv ["code4.py", "code3.py"] [] [] [] "code3.py" "code4.py"
    "Dup" (entryOf { plainModule with TOOL_NAME := some "Dup", TOOL_DESCRIPTION := some "first" } "code3.py")
    (entryOf { plainModule with TOOL_NAME := some "Dup", TOOL_DESCRIPTION := some "second" } "code4.py")
    (by decide) (by decide) (by decide) (by intro g hg; cases hg)).1

/-- C1: the registry presents the loaded units strictly ascending in the
key (code number extracted from the file name, declared priority, display
name); in particular `code2.py` with no declared priority precedes
`code10.py` with declared priority 1, because 2 < 10 dominates. -/
theorem c1_registry_strictly_sorted (env : ImportEnv) (listing : List String) :
    ((discover_and_load_modules env listing).1).Pairwise
      (fun x y => keyLt (sortKey x) (sortKey y) = true) ∧
    (discover_and_load_modules exampleEnv ["code10.py", "code2.py"]).1.map Prod.fst
      = ["Code2", "Code10"] := by
  constructor
  · have hsorted : ((loadAll env listing).modules.insertionSort entryLeP).Pairwise entryLeP :=
      List.sorted_insertionSort entryLeP _
    have hperm : ((loadAll env listing).modules.insertionSort entryLeP).Perm
        (loadAll env listing).modules := List.perm_insertionSort entryLeP _
    have hnd : (((loadAll env listing).modules).map Prod.fst).Nodup := by
      unfold loadAll
      rw [foldl_modules]
      exact nodup_keys_foldl env (scanOrder listing) [] (by simp)
    have hnd2 : ((((loadAll env listing).modules.insertionSort entryLeP)).map Prod.fst).Nodup :=
      ((hperm.map Prod.fst).nodup_iff).mpr hnd
    have hpair_ne : ((loadAll env listing).modules.insertionSort entryLeP).Pairwise
        (fun x y => x.1 ≠ y.1) := List.pairwise_map.mp hnd2
    refine (hsorted.and hpair_ne).imp ?_
    intro x y hxy
    refine keyLt_of_keyLe_of_ne ?_ ?_
    · exact hxy.1
    · intro hkeq
      exact hxy.2 (congrArg (fun t => t.2.2) hkeq)
  · decide

end B2C
